import Mathlib

set_option maxHeartbeats 1000000
set_option maxRecDepth 4000

/-!
Shallow embedding of
`src/vs/workbench/services/configurationResolver/browser/configurationResolverService.ts`
(the `ConfigurationResolverService` class).

The embedding models:
 - JS-like configuration values (`JSValue`), with JS truthiness and the
   `Types.isString` / `Types.isStringArray` / `Types.isUndefinedOrNull` checks;
 - the static regex `/\$\x7b((input|command):(.*?))\x7d/g` scan performed by
   `findVariables` (the lazy `.*?` of a JS regex without the `s` flag matches
   any characters except the four JS line terminators, so a match at a given
   position exists exactly when a closing brace occurs before any line
   terminator; `exec` in a loop yields the leftmost non-overlapping matches);
 - `showUserInput`, `resolveWithInputAndCommands` (split here into the pure
   per-variable body `resolveOneVariable` and the loop `resolveVarsLoop`) and
   `updateMapping`.

Interactive capabilities (`quickInputService.input`, `quickInputService.pick`,
`commandService.executeCommand`) are oracles collected in an `Env` record;
`undefined` results (user cancellation, commands without a result) are `none`
or `JSValue.undef`.  Thrown JS errors are modelled with `Except`; the faults
raised by the source (localized `Error`s) form the `Fault` type, which also
has a `typeError` constructor for genuine JS runtime `TypeError`s such as
calling `.filter` on `undefined`.  JS dictionaries and `Map`s are association
lists; `dictSet` models `map[k] = v` / `Map.set` (overwrite in place on an
existing key, append otherwise) and `dictGet` models lookup.
-/

namespace ConfigResolver

/-- JS-like values: configuration trees walked by the service, and values
returned by external commands.  `undef` is JS `undefined`, `null` is JS
`null`; `num` stands in for the remaining scalar values. -/
inductive JSValue where
  | str (s : String)
  | num (n : Int)
  | bool (b : Bool)
  | null
  | undef
  | arr (elems : List JSValue)
  | obj (fields : List (String × JSValue))

/-- JS truthiness of a value (used for `if (info.default)`,
`if (!configuration)`, `aliasMap[name] || name`, ...). -/
def truthy : JSValue → Bool
  | .str s => s != ""
  | .num n => n != 0
  | .bool b => b
  | .null => false
  | .undef => false
  | .arr _ => true
  | .obj _ => true

namespace Types

/-- `Types.isString` from `vs/base/common/types`. -/
def isString : JSValue → Bool
  | .str _ => true
  | _ => false

/-- `Types.isUndefinedOrNull` from `vs/base/common/types`. -/
def isUndefinedOrNull : JSValue → Bool
  | .undef => true
  | .null => true
  | _ => false

/-- `Types.isStringArray` from `vs/base/common/types`: an array whose
elements are all strings. -/
def isStringArray : JSValue → Bool
  | .arr xs => xs.all isString
  | _ => false

end Types

/-- The string carried by a `JSValue` known to be a string. -/
def stringOf : JSValue → String
  | .str s => s
  | _ => ""

/-- The strings carried by a `JSValue` known to be a string array. -/
def stringArrayOf : JSValue → List String
  | .arr xs => xs.map stringOf
  | _ => []

/-- JS strict equality `s === v` where the left operand is a string: true
exactly when `v` is the same string (`===` never equates a string with a
value of another type). -/
def strictEqStr (s : String) : JSValue → Bool
  | .str t => s == t
  | _ => false

/-! ### The scanner (`findVariables`, lines 196-217) -/

/-- The four JS line terminators, which `.` (no `s` flag) does not match. -/
def isLineTerm (c : Char) : Bool :=
  c = '\n' || c = '\r' || c = '\u2028' || c = '\u2029'

/-- The literal head of an `input` match of
`ConfigurationResolverService.INPUT_OR_COMMAND_VARIABLES_PATTERN`. -/
def inputHead : List Char := "$\x7binput:".data

/-- The literal head of a `command` match of the pattern. -/
def commandHead : List Char := "$\x7bcommand:".data

/-- The `(.*?)\x7d` part of the pattern at a given position: lazily take
characters up to the first closing brace, failing if a line terminator (which
`.` cannot match) occurs first.  Returns the captured name and the remainder
after the brace. -/
def takeName : List Char → Option (List Char × List Char)
  | [] => none
  | c :: cs =>
    if c = '\x7d' then some ([], cs)
    else if isLineTerm c then none
    else
      match takeName cs with
      | some (nm, rest) => some (c :: nm, rest)
      | none => none

/-- A successful `takeName` consumes at least the closing brace. -/
theorem takeName_length :
    ∀ (cs nm rest : _), takeName cs = some (nm, rest) → rest.length < cs.length := by
  intro cs
  induction cs with
  | nil => intro nm rest h; simp [takeName] at h
  | cons c cs ih =>
    intro nm rest h
    simp only [takeName] at h
    split at h
    · simp only [Option.some.injEq, Prod.mk.injEq] at h
      obtain ⟨-, h2⟩ := h
      subst h2
      simp only [List.length_cons]
      omega
    · split at h
      · exact absurd h (by simp)
      · cases htn : takeName cs with
        | none => rw [htn] at h; exact absurd h (by simp)
        | some p =>
          obtain ⟨nm', rest'⟩ := p
          rw [htn] at h
          simp only [Option.some.injEq, Prod.mk.injEq] at h
          obtain ⟨-, h2⟩ := h
          subst h2
          have := ih nm' rest' htn
          simp only [List.length_cons]
          omega

/-- One attempt of the regex at the current position: the alternation tries
`input` then `command`; on either head, the lazy name capture must find a
closing brace.  Returns the captured `kind:name` text (group 1 of the
pattern) and the remainder after the whole match. -/
def tryMatch (cs : List Char) : Option (String × List Char) :=
  if inputHead.isPrefixOf cs then
    match takeName (cs.drop inputHead.length) with
    | some (nm, rest) => some ("input:" ++ String.mk nm, rest)
    | none => none
  else if commandHead.isPrefixOf cs then
    match takeName (cs.drop commandHead.length) with
    | some (nm, rest) => some ("command:" ++ String.mk nm, rest)
    | none => none
  else none

/-- A successful match consumes at least one character. -/
theorem tryMatch_length :
    ∀ (cs : List Char) (v : String) (rest : List Char),
      tryMatch cs = some (v, rest) → rest.length < cs.length := by
  intro cs v rest h
  unfold tryMatch at h
  have hin : (cs.drop inputHead.length).length ≤ cs.length := by
    rw [List.length_drop]; omega
  have hcmd : (cs.drop commandHead.length).length ≤ cs.length := by
    rw [List.length_drop]; omega
  split at h
  · cases htn : takeName (cs.drop inputHead.length) with
    | none => rw [htn] at h; exact absurd h (by simp)
    | some p =>
      obtain ⟨nm, r⟩ := p
      rw [htn] at h
      simp only [Option.some.injEq, Prod.mk.injEq] at h
      obtain ⟨-, h2⟩ := h
      subst h2
      exact lt_of_lt_of_le (takeName_length _ _ _ htn) hin
  · split at h
    · cases htn : takeName (cs.drop commandHead.length) with
      | none => rw [htn] at h; exact absurd h (by simp)
      | some p =>
        obtain ⟨nm, r⟩ := p
        rw [htn] at h
        simp only [Option.some.injEq, Prod.mk.injEq] at h
        obtain ⟨-, h2⟩ := h
        subst h2
        exact lt_of_lt_of_le (takeName_length _ _ _ htn) hcmd
    · exact absurd h (by simp)

/-- `if (variables.indexOf(command) < 0) variables.push(command)`. -/
def pushUnique (vars : List String) (v : String) : List String :=
  if v ∈ vars then vars else vars ++ [v]

/-- The `while ((matches = PATTERN.exec(object)) !== null)` loop of
`findVariables` on one string: the regex engine looks for the leftmost match
at or after the current position and continues after each match. -/
def scanString (cs : List Char) (vars : List String) : List String :=
  match h : tryMatch cs with
  | some (v, rest) => scanString rest (pushUnique vars v)
  | none =>
    match cs with
    | [] => vars
    | _ :: cs2 => scanString cs2 vars
termination_by cs.length
decreasing_by
  · exact tryMatch_length _ _ _ h
  · simp only [List.length_cons]; omega

/-- The same scan without the dedup check: every match, in order, dups kept. -/
def rawScan (cs : List Char) : List String :=
  match h : tryMatch cs with
  | some (v, rest) => v :: rawScan rest
  | none =>
    match cs with
    | [] => []
    | _ :: cs2 => rawScan cs2
termination_by cs.length
decreasing_by
  · exact tryMatch_length _ _ _ h
  · simp only [List.length_cons]; omega

mutual

/-- `findVariables` (lines 196-217): strings are scanned, arrays are visited
element by element in order, other truthy objects by enumerating their keys;
remaining scalars contribute nothing (`Object.keys` of a primitive is empty,
and falsy values are skipped). -/
def findVariables : JSValue → List String → List String
  | .str s, vars => scanString s.data vars
  | .arr xs, vars => findVariablesList xs vars
  | .obj fs, vars => findVariablesFields fs vars
  | .num _, vars => vars
  | .bool _, vars => vars
  | .null, vars => vars
  | .undef, vars => vars

/-- `object.forEach(value => this.findVariables(value, variables))`. -/
def findVariablesList : List JSValue → List String → List String
  | [], vars => vars
  | x :: xs, vars => findVariablesList xs (findVariables x vars)

/-- `Object.keys(object).forEach(key => this.findVariables(object[key], variables))`. -/
def findVariablesFields : List (String × JSValue) → List String → List String
  | [], vars => vars
  | (_, v) :: fs, vars => findVariablesFields fs (findVariables v vars)

end

mutual

/-- The raw reference sequence of the traversal: every match in traversal
order, duplicates kept.  Spec-side companion of `findVariables`. -/
def allRefs : JSValue → List String
  | .str s => rawScan s.data
  | .arr xs => allRefsList xs
  | .obj fs => allRefsFields fs
  | .num _ => []
  | .bool _ => []
  | .null => []
  | .undef => []

/-- Raw references of the elements of an array, in order. -/
def allRefsList : List JSValue → List String
  | [] => []
  | x :: xs => allRefs x ++ allRefsList xs

/-- Raw references of the values of an object, in key order. -/
def allRefsFields : List (String × JSValue) → List String
  | [] => []
  | (_, v) :: fs => allRefs v ++ allRefsFields fs

end

/-- First-occurrence deduplication of a list, keeping each element at the
position of its first appearance. -/
def firstDedup (l : List String) : List String :=
  l.foldl (fun acc x => if x ∈ acc then acc else acc ++ [x]) []

/-! ### Data for the interactive resolution (`showUserInput`, lines 224-289) -/

/-- A `ConfiguredInput` record: an entry of the declared `inputs` section.
Individual attributes are arbitrary JS values (`undef` when the attribute is
not given), since the source validates them at use sites. -/
structure ConfiguredInput where
  id : String
  type : String
  description : JSValue := JSValue.undef
  default : JSValue := JSValue.undef
  options : JSValue := JSValue.undef
  command : JSValue := JSValue.undef
  args : JSValue := JSValue.undef

/-- The `IInputOptions` record handed to `quickInputService.input`:
`prompt` text and the optional prefilled `value` (`undef` when the source
never assigns it). -/
structure InputOptions where
  prompt : JSValue
  value : JSValue := JSValue.undef

/-- An `IQuickPickItem`: a label plus an optional description annotation. -/
structure QuickPickItem where
  label : String
  description : Option String := none
deriving DecidableEq

/-- The `IPickOptions` record handed to `quickInputService.pick`. -/
structure PickOptions where
  placeHolder : JSValue

/-- The faults raised by the service (`throw new Error(nls.localize(...))` /
`Promise.reject`), carrying the data interpolated into the message, plus
`typeError` for a genuine JS runtime `TypeError`. -/
inductive Fault where
  | undefinedVariable (varName : String)
  | missingAttribute (varName ty attr : String)
  | unknownInputType (varName : String)
  | invalidResultType (commandId : String)
  | inputCommandNoStringType (varName command : String)
  | typeError (msg : String)
deriving DecidableEq

/-- The external capabilities consumed by the service: the free-text prompt,
the single-choice picker (both returning `none` on user cancellation) and
command execution (`none` as command id models a JS `undefined` id; the
returned `JSValue` is arbitrary, `JSValue.undef` when the command produced
nothing). -/
structure Env where
  input : InputOptions → Option String
  pick : List QuickPickItem → PickOptions → Option QuickPickItem
  executeCommand : Option String → JSValue → JSValue

/-- How a JS template literal renders an optional string (an `undefined`
interpolation prints as the text `undefined`); also the key used by a JS
bracket access `m[name]`, whose key is coerced to a string. -/
def jsShow (o : Option String) : String := o.getD "undefined"

/-- `resolvedInput ? resolvedInput : undefined` (line 245): a string answer
is kept unless it is falsy, i.e. the empty string; `undefined` stays
`undefined`. -/
def strOrUndef : Option String → Option String
  | some s => if s = "" then none else some s
  | none => none

/-- One step of the `info.options.forEach` loop of the `pickString` branch
(lines 257-265): an option strictly equal to `info.default` is annotated
with the localized `Default` description and unshifted to the front,
any other option is pushed at the back. -/
def buildPicksStep (dflt : JSValue) (picks : List QuickPickItem)
    (pickOption : String) : List QuickPickItem :=
  if strictEqStr pickOption dflt then
    { label := pickOption, description := some "Default" } :: picks
  else picks ++ [{ label := pickOption }]

/-- The pick list built by the `pickString` branch (lines 256-265). -/
def buildPicks (options : List String) (dflt : JSValue) : List QuickPickItem :=
  options.foldl (buildPicksStep dflt) []

/-- `showUserInput` (lines 224-289).  `varName` is the destructured `name`
component of the variable (JS `undefined` when the variable had no colon);
`inputInfos` is `none` when the `inputs` lookup in
`resolveWithInputAndCommands` left the array `undefined`, in which case the
JS code throws a `TypeError` by calling `.filter` on `undefined`. -/
def showUserInput (env : Env) (varName : Option String)
    (inputInfos : Option (List ConfiguredInput)) : Except Fault (Option String) :=
  match inputInfos with
  | none => Except.error (Fault.typeError "cannot read property filter of undefined")
  | some infos =>
    match (infos.filter (fun item => decide (some item.id = varName))).getLast? with
    | some info =>
      match info.type with
      | "promptString" =>
        if !(Types.isString info.description) then
          Except.error (Fault.missingAttribute (jsShow varName) info.type "description")
        else
          let inputOptions : InputOptions :=
            if truthy info.default then
              { prompt := info.description, value := info.default }
            else
              { prompt := info.description }
          Except.ok (strOrUndef (env.input inputOptions))
      | "pickString" =>
        if !(Types.isString info.description) then
          Except.error (Fault.missingAttribute (jsShow varName) info.type "description")
        else if !(Types.isStringArray info.options) then
          Except.error (Fault.missingAttribute (jsShow varName) info.type "options")
        else
          let picks := buildPicks (stringArrayOf info.options) info.default
          let pickOptions : PickOptions := { placeHolder := info.description }
          Except.ok (Option.map QuickPickItem.label (env.pick picks pickOptions))
      | "command" =>
        if !(Types.isString info.command) then
          Except.error (Fault.missingAttribute (jsShow varName) info.type "command")
        else
          let result := env.executeCommand (some (stringOf info.command)) info.args
          if Types.isString result then Except.ok (some (stringOf result))
          else if Types.isUndefinedOrNull result then Except.ok none
          else
            Except.error
              (Fault.inputCommandNoStringType (jsShow varName) (stringOf info.command))
      | _ => Except.error (Fault.unknownInputType (jsShow varName))
    | none => Except.error (Fault.undefinedVariable (jsShow varName))

/-! ### The orchestrator (`resolveWithInputAndCommands`, lines 138-189) -/

/-- Splitting a char list at every colon (JS `String.prototype.split`). -/
def splitOnColon : List Char → List (List Char)
  | [] => [[]]
  | c :: cs =>
    if c = ':' then [] :: splitOnColon cs
    else
      match splitOnColon cs with
      | s :: rest => (c :: s) :: rest
      | [] => [[c]]

/-- JS `variable.split(':', 2)` (line 161): split at every colon, then keep
only the first two segments (the JS `limit` argument truncates, it does not
keep the remainder). -/
def jsSplit2 (s : String) : List String :=
  ((splitOnColon s.data).take 2).map String.mk

/-- Association-list lookup, modelling a JS dictionary / `Map` read. -/
def dictGet (k : String) : List (String × String) → Option String
  | [] => none
  | kv :: d => if kv.1 = k then some kv.2 else dictGet k d

/-- JS `map[k] = v` / `Map.set`: overwrite in place when the key exists,
append otherwise. -/
def dictSet (d : List (String × String)) (k v : String) : List (String × String) :=
  if d.any (fun kv => kv.1 = k) then
    d.map (fun kv => if kv.1 = k then (k, v) else kv)
  else d ++ [(k, v)]

/-- Line 173: `(variableToCommandMap ? variableToCommandMap[name] : undefined)
|| name` — the alias entry when present and truthy (non-empty), otherwise the
variable name itself.  A JS access with an `undefined` key reads the
property named by the string `undefined`. -/
def aliasOrName (variableToCommandMap : Option (List (String × String)))
    (name : Option String) : Option String :=
  let looked : Option String :=
    match variableToCommandMap with
    | some m => dictGet (jsShow name) m
    | none => none
  match looked with
  | some c => if c = "" then name else some c
  | none => name

/-- The body of the `for (const variable of variables)` loop of
`resolveWithInputAndCommands` (lines 159-185) for one variable: destructure
`variable.split(':', 2)`, dispatch on the kind, and classify the outcome
(`.ok (some s)` a string result, `.ok none` JS `undefined`/`null` — the
abort signal —, `.error` a thrown fault). -/
def resolveOneVariable (env : Env) (configuration : JSValue)
    (variableToCommandMap : Option (List (String × String)))
    (inputs : Option (List ConfiguredInput)) (varRef : String) :
    Except Fault (Option String) :=
  match jsSplit2 varRef with
  | [] => Except.ok none
  | ty :: nmTail =>
    let name : Option String := nmTail.head?
    match ty with
    | "input" => showUserInput env name inputs
    | "command" =>
      let commandId : Option String := aliasOrName variableToCommandMap name
      let result := env.executeCommand commandId configuration
      if Types.isString result then Except.ok (some (stringOf result))
      else if Types.isUndefinedOrNull result then Except.ok none
      else Except.error (Fault.invalidResultType (jsShow commandId))
    | _ => Except.ok none

/-- The sequential loop of `resolveWithInputAndCommands`: resolve each
variable in order; a string result is recorded in `variableValues`
(`variableValues[variable] = result`), any other result returns `undefined`
for the whole call at once, and a thrown fault propagates. -/
def resolveVarsLoop (env : Env) (configuration : JSValue)
    (variableToCommandMap : Option (List (String × String)))
    (inputs : Option (List ConfiguredInput)) :
    List String → List (String × String) → Except Fault (Option (List (String × String)))
  | [], variableValues => Except.ok (some variableValues)
  | varRef :: rest, variableValues =>
    match resolveOneVariable env configuration variableToCommandMap inputs varRef with
    | Except.error e => Except.error e
    | Except.ok none => Except.ok none
    | Except.ok (some value) =>
      resolveVarsLoop env configuration variableToCommandMap inputs rest
        (dictSet variableValues varRef value)

/-- `resolveWithInputAndCommands` (lines 138-189): `undefined` for a falsy
configuration, otherwise scan the configuration and run the loop.  The
`inputs` lookup through the configuration service (lines 145-151) is
external; its result (possibly the untouched `undefined`) is a parameter. -/
def resolveWithInputAndCommands (env : Env) (configuration : JSValue)
    (variableToCommandMap : Option (List (String × String)))
    (inputs : Option (List ConfiguredInput)) :
    Except Fault (Option (List (String × String))) :=
  if truthy configuration then
    resolveVarsLoop env configuration variableToCommandMap inputs
      (findVariables configuration []) []
  else Except.ok none

/-- `updateMapping` (lines 120-128): `false` leaving the cumulative mapping
untouched when `newMapping` is falsy, otherwise copy every entry over and
return `true`. -/
def updateMapping (newMapping : Option (List (String × String)))
    (fullMapping : List (String × String)) : Bool × List (String × String) :=
  match newMapping with
  | none => (false, fullMapping)
  | some m => (true, m.foldl (fun full kv => dictSet full kv.1 kv.2) fullMapping)

/-- The last binding of a key in an association list (the one a
left-to-right sequence of `set`s leaves in force).  Spec-side helper. -/
def lastLookup (k : String) : List (String × String) → Option String
  | [] => none
  | kv :: m =>
    match lastLookup k m with
    | some v => some v
    | none => if kv.1 = k then some kv.2 else none

/-! ### Concrete oracle environments used by witnesses and counterexamples -/

/-- An environment whose command executor echoes the command id it was
invoked with (and whose interactive prompts cancel). -/
def echoEnv : Env where
  input := fun _ => none
  pick := fun _ _ => none
  executeCommand := fun cid _ => JSValue.str (jsShow cid)

/-- An environment that answers the prompt described by `da` with `va` and
cancels every other interaction. -/
def promptEnvAB : Env where
  input := fun opts => if strictEqStr "da" opts.prompt then some "va" else none
  pick := fun _ _ => none
  executeCommand := fun _ _ => JSValue.undef

/-- Three declared `promptString` inputs `a`, `b`, `c`. -/
def inputsABC : List ConfiguredInput :=
  [{ id := "a", type := "promptString", description := JSValue.str "da" },
   { id := "b", type := "promptString", description := JSValue.str "db" },
   { id := "c", type := "promptString", description := JSValue.str "dc" }]

/-- An environment whose picker always picks an item labelled `picked`. -/
def pickEnv : Env where
  input := fun _ => none
  pick := fun _ _ => some { label := "picked" }
  executeCommand := fun _ _ => JSValue.undef

/-- An environment whose command executor returns the number `3`. -/
def numEnv : Env where
  input := fun _ => none
  pick := fun _ _ => none
  executeCommand := fun _ _ => JSValue.num 3

/-- An environment whose prompt always answers with the empty string. -/
def emptyAnswerEnv : Env where
  input := fun _ => some ""
  pick := fun _ _ => none
  executeCommand := fun _ _ => JSValue.undef

/-- A `pickString` input definition with the given id, description, options
and default. -/
def mkPickInput (varName descr dflt : String) (opts : List String) : ConfiguredInput :=
  { id := varName, type := "pickString", description := JSValue.str descr,
    options := JSValue.arr (opts.map JSValue.str), default := JSValue.str dflt }

/-- A `promptString` input definition with the given id, description and
default attribute. -/
def mkPromptInput (varName descr : String) (dflt : JSValue) : ConfiguredInput :=
  { id := varName, type := "promptString", description := JSValue.str descr,
    default := dflt }

/-- Decidable equality of outcomes, for evaluating the embedding at
concrete inputs. -/
instance : DecidableEq (Except Fault (Option String)) := fun a b =>
  match a, b with
  | .ok x, .ok y => decidable_of_iff (x = y) (by simp)
  | .error x, .error y => decidable_of_iff (x = y) (by simp)
  | .ok _, .error _ => isFalse (by simp)
  | .error _, .ok _ => isFalse (by simp)

/-! ### Scanner lemmas -/

/-- Step equation of `scanString` when the regex matches. -/
theorem scanString_some (cs : List Char) (v : String) (rest : List Char)
    (vars : List String) (h : tryMatch cs = some (v, rest)) :
    scanString cs vars = scanString rest (pushUnique vars v) := by
  rw [scanString.eq_def]
  split
  next v' rest' heq =>
    rw [h] at heq
    simp only [Option.some.injEq, Prod.mk.injEq] at heq
    obtain ⟨h1, h2⟩ := heq
    rw [h1, h2]
  next heq => exact absurd (h.symm.trans heq) (by simp)

/-- Step equation of `scanString` on the empty string. -/
theorem scanString_nil (vars : List String) : scanString [] vars = vars := by
  rw [scanString.eq_def]
  split
  next v rest heq =>
    have h0 : tryMatch [] = none := rfl
    exact absurd (h0.symm.trans heq) (by simp)
  next heq => rfl

/-- Step equation of `scanString` when the regex does not match at the
current position: the engine advances one character. -/
theorem scanString_none_cons (c : Char) (cs2 : List Char) (vars : List String)
    (h : tryMatch (c :: cs2) = none) :
    scanString (c :: cs2) vars = scanString cs2 vars := by
  rw [scanString.eq_def]
  split
  next v rest heq => exact absurd (h.symm.trans heq) (by simp)
  next heq => rfl

/-- Step equation of `rawScan` when the regex matches. -/
theorem rawScan_some (cs : List Char) (v : String) (rest : List Char)
    (h : tryMatch cs = some (v, rest)) : rawScan cs = v :: rawScan rest := by
  rw [rawScan.eq_def]
  split
  next v' rest' heq =>
    rw [h] at heq
    simp only [Option.some.injEq, Prod.mk.injEq] at heq
    obtain ⟨h1, h2⟩ := heq
    rw [h1, h2]
  next heq => exact absurd (h.symm.trans heq) (by simp)

/-- Step equation of `rawScan` on the empty string. -/
theorem rawScan_nil : rawScan [] = [] := by
  rw [rawScan.eq_def]
  split
  next v rest heq =>
    have h0 : tryMatch [] = none := rfl
    exact absurd (h0.symm.trans heq) (by simp)
  next heq => rfl

/-- Step equation of `rawScan` when the regex does not match here. -/
theorem rawScan_none_cons (c : Char) (cs2 : List Char)
    (h : tryMatch (c :: cs2) = none) : rawScan (c :: cs2) = rawScan cs2 := by
  rw [rawScan.eq_def]
  split
  next v rest heq => exact absurd (h.symm.trans heq) (by simp)
  next heq => rfl

/-- The deduplicating scan is the raw scan folded through the
`indexOf`-guarded push. -/
theorem scanString_eq_rawScan (cs : List Char) (vars : List String) :
    scanString cs vars = (rawScan cs).foldl pushUnique vars := by
  induction cs, vars using scanString.induct with
  | case1 cs vars v rest h ih =>
    rw [scanString_some cs v rest vars h, rawScan_some cs v rest h, List.foldl_cons]
    exact ih
  | case2 vars h1 h2 =>
    rw [scanString_nil, rawScan_nil]
    rfl
  | case3 vars c cs2 h1 h2 ih =>
    rw [scanString_none_cons c cs2 vars h1, rawScan_none_cons c cs2 h1]
    exact ih

/-- The traversal with inline dedup is the raw traversal folded through the
guarded push. -/
theorem findVariables_eq (T : JSValue) (vars : List String) :
    findVariables T vars = (allRefs T).foldl pushUnique vars := by
  refine findVariables.induct
    (fun T vars => findVariables T vars = (allRefs T).foldl pushUnique vars)
    (fun fs vars => findVariablesFields fs vars = (allRefsFields fs).foldl pushUnique vars)
    (fun xs vars => findVariablesList xs vars = (allRefsList xs).foldl pushUnique vars)
    ?_ ?_ ?_ ?_ ?_ ?_ ?_ ?_ ?_ ?_ ?_ T vars
  · intro s vars
    simp only [findVariables, allRefs]
    exact scanString_eq_rawScan s.data vars
  · intro xs vars ih
    simp only [findVariables, allRefs]
    exact ih
  · intro fs vars ih
    simp only [findVariables, allRefs]
    exact ih
  · intro n vars; simp [findVariables, allRefs]
  · intro b vars; simp [findVariables, allRefs]
  · intro vars; simp [findVariables, allRefs]
  · intro vars; simp [findVariables, allRefs]
  · intro vars; simp [findVariablesList, allRefsList]
  · intro x xs vars ih1 ih2
    simp only [findVariablesList, allRefsList]
    rw [List.foldl_append, ih2, ih1]
  · intro vars; simp [findVariablesFields, allRefsFields]
  · intro k v fs vars ih1 ih2
    simp only [findVariablesFields, allRefsFields]
    rw [List.foldl_append, ih2, ih1]

/-- The guarded push keeps lists duplicate-free. -/
theorem pushUnique_nodup (vars : List String) (v : String) (h : vars.Nodup) :
    (pushUnique vars v).Nodup := by
  unfold pushUnique
  split
  · exact h
  · next hv =>
    rw [List.nodup_append]
    refine ⟨h, List.nodup_singleton v, ?_⟩
    intro a ha hmem
    rw [List.mem_singleton] at hmem
    exact hv (hmem ▸ ha)

/-- Folding the guarded push preserves freedom from duplicates. -/
theorem foldl_pushUnique_nodup (l : List String) :
    ∀ init : List String, init.Nodup → (l.foldl pushUnique init).Nodup := by
  induction l with
  | nil => intro init h; exact h
  | cons x l ih =>
    intro init h
    rw [List.foldl_cons]
    exact ih _ (pushUnique_nodup init x h)

/-! ### Splitting lemmas -/

/-- Splitting a colon-free list yields a single segment. -/
theorem splitOnColon_no_colon (l : List Char) (h : ':' ∉ l) : splitOnColon l = [l] := by
  induction l with
  | nil => rfl
  | cons c cs ih =>
    have hc : ¬c = ':' := fun hcc => h (hcc ▸ List.mem_cons_self c cs)
    have hcs : ':' ∉ cs := fun hmem => h (List.mem_cons_of_mem c hmem)
    simp only [splitOnColon, if_neg hc, ih hcs]

/-- Splitting at the first colon after a colon-free head. -/
theorem splitOnColon_append (l1 l2 : List Char) (h : ':' ∉ l1) :
    splitOnColon (l1 ++ ':' :: l2) = l1 :: splitOnColon l2 := by
  induction l1 with
  | nil => simp [splitOnColon]
  | cons c cs ih =>
    have hc : ¬c = ':' := fun hcc => h (hcc ▸ List.mem_cons_self c cs)
    have hcs : ':' ∉ cs := fun hmem => h (List.mem_cons_of_mem c hmem)
    simp only [List.cons_append, splitOnColon, if_neg hc, List.append_eq]
    rw [ih hcs]

/-- `String.data` distributes over append. -/
theorem data_append (s t : String) : (s ++ t).data = s.data ++ t.data := by
  cases s; cases t; rfl

/-- Rebuilding a string from its characters is the identity. -/
theorem mk_data (s : String) : String.mk s.data = s := rfl

/-- `(kind ++ ":" ++ nm).split(':', 2)` for a colon-free kind and name. -/
theorem jsSplit2_two (kind nm : String) (hk : ':' ∉ kind.data) (hn : ':' ∉ nm.data) :
    jsSplit2 (kind ++ ":" ++ nm) = [kind, nm] := by
  unfold jsSplit2
  rw [data_append, data_append]
  have hcolon : (":" : String).data = [':'] := rfl
  rw [hcolon, List.append_assoc, List.singleton_append,
    splitOnColon_append kind.data nm.data hk, splitOnColon_no_colon nm.data hn]
  simp [mk_data]

/-- `(kind ++ ":" ++ nm ++ ":" ++ ext).split(':', 2)` drops everything after
the second colon. -/
theorem jsSplit2_three (kind nm ext : String)
    (hk : ':' ∉ kind.data) (hn : ':' ∉ nm.data) :
    jsSplit2 (kind ++ ":" ++ nm ++ ":" ++ ext) = [kind, nm] := by
  unfold jsSplit2
  rw [data_append, data_append, data_append, data_append]
  have hcolon : (":" : String).data = [':'] := rfl
  rw [hcolon]
  have hshape :
      kind.data ++ [':'] ++ nm.data ++ [':'] ++ ext.data =
        kind.data ++ ':' :: (nm.data ++ ':' :: ext.data) := by
    simp [List.append_assoc]
  rw [hshape, splitOnColon_append kind.data _ hk, splitOnColon_append nm.data _ hn]
  simp [mk_data]

/-! ### Dictionary lemmas -/

/-- Overwriting the binding of another key does not change a lookup. -/
theorem dictGet_map_overwrite (d : List (String × String)) (ks vs kg : String)
    (hne : ¬ks = kg) :
    dictGet kg (d.map (fun kv => if kv.1 = ks then (ks, vs) else kv)) = dictGet kg d := by
  induction d with
  | nil => rfl
  | cons kv d ih =>
    obtain ⟨k1, v1⟩ := kv
    simp only [List.map_cons]
    by_cases h1 : k1 = ks
    · have h1g : ¬k1 = kg := fun hc => hne (h1.symm.trans hc)
      simp only [if_pos h1, dictGet, if_neg hne, if_neg h1g]
      exact ih
    · simp only [if_neg h1, dictGet]
      by_cases hg : k1 = kg <;> simp [hg, ih]

/-- Overwriting the binding of a present key makes its lookup the new value. -/
theorem dictGet_map_hit (d : List (String × String)) (ks vs kg : String)
    (hin : (d.any fun kv => kv.1 = ks) = true) (heq : ks = kg) :
    dictGet kg (d.map (fun kv => if kv.1 = ks then (ks, vs) else kv)) = some vs := by
  induction d with
  | nil => simp at hin
  | cons kv d ih =>
    obtain ⟨k1, v1⟩ := kv
    simp only [List.map_cons]
    by_cases h1 : k1 = ks
    · subst h1
      subst heq
      simp [dictGet]
    · have h1g : ¬k1 = kg := fun hc => h1 (hc.trans heq.symm)
      simp only [if_neg h1, dictGet, if_neg h1g]
      simp only [List.any_cons, h1, decide_eq_true_eq, false_or, decide_False,
        Bool.false_or] at hin
      exact ih (by simpa using hin)

/-- Lookup after appending a fresh binding at the back. -/
theorem dictGet_append_single (d : List (String × String)) (ks vs kg : String) :
    dictGet kg (d ++ [(ks, vs)]) =
      match dictGet kg d with
      | some v => some v
      | none => if ks = kg then some vs else none := by
  induction d with
  | nil => simp [dictGet]
  | cons kv d ih =>
    obtain ⟨k1, v1⟩ := kv
    simp only [List.cons_append, dictGet]
    by_cases h1 : k1 = kg <;> simp [h1, ih]

/-- When no entry has the key, lookup fails. -/
theorem any_false_dictGet_none (d : List (String × String)) (ks : String)
    (h : (d.any fun kv => kv.1 = ks) = false) : dictGet ks d = none := by
  induction d with
  | nil => rfl
  | cons kv d ih =>
    obtain ⟨k1, v1⟩ := kv
    simp only [List.any_cons, Bool.or_eq_false_iff, decide_eq_false_iff_not] at h
    obtain ⟨h1, h2⟩ := h
    simp [dictGet, h1, ih h2]

/-- Reading back after a JS-style `set`: the written key yields the new
value, other keys are untouched. -/
theorem dictGet_dictSet (d : List (String × String)) (ks vs kg : String) :
    dictGet kg (dictSet d ks vs) = if ks = kg then some vs else dictGet kg d := by
  by_cases hany : (d.any fun kv => kv.1 = ks) = true
  · rw [dictSet, if_pos hany]
    by_cases hg : ks = kg
    · rw [if_pos hg, dictGet_map_hit d ks vs kg hany hg]
    · rw [if_neg hg, dictGet_map_overwrite d ks vs kg hg]
  · have hanyf : (d.any fun kv => kv.1 = ks) = false := by
      revert hany
      cases d.any fun kv => kv.1 = ks <;> simp
    rw [dictSet, if_neg hany, dictGet_append_single]
    by_cases hg : ks = kg
    · have hnone : dictGet kg d = none := hg ▸ any_false_dictGet_none d ks hanyf
      simp [hnone, hg]
    · cases hdg : dictGet kg d <;> simp [hdg, hg]

/-- Folding JS-style `set`s over a batch of entries: the last binding of a
key in the batch wins, otherwise the original mapping shows through. -/
theorem dictGet_foldl_dictSet (m : List (String × String)) :
    ∀ (cum : List (String × String)) (kg : String),
      dictGet kg (m.foldl (fun full kv => dictSet full kv.1 kv.2) cum) =
        match lastLookup kg m with
        | some v => some v
        | none => dictGet kg cum := by
  induction m with
  | nil => intro cum kg; simp [lastLookup]
  | cons kv m ih =>
    intro cum kg
    obtain ⟨k1, v1⟩ := kv
    rw [List.foldl_cons, ih, lastLookup]
    cases hlast : lastLookup kg m with
    | some v => rfl
    | none =>
      simp only []
      rw [dictGet_dictSet]
      by_cases h : k1 = kg <;> simp [h]

/-! ### Pick list lemmas -/

/-- Once the default is among the options still to process (or already at
the head of the accumulator), it ends up at the head, annotated. -/
theorem buildPicks_head (dflt : String) :
    ∀ (os : List String) (acc : List QuickPickItem),
      (dflt ∈ os ∨ acc.head? = some { label := dflt, description := some "Default" }) →
      (os.foldl (buildPicksStep (JSValue.str dflt)) acc).head? =
        some { label := dflt, description := some "Default" } := by
  intro os
  induction os with
  | nil =>
    intro acc h
    cases h with
    | inl h => exact absurd h (List.not_mem_nil dflt)
    | inr h => exact h
  | cons o os ih =>
    intro acc h
    rw [List.foldl_cons]
    by_cases ho : o = dflt
    · apply ih
      right
      have hcond : strictEqStr o (JSValue.str dflt) = true := by
        simp [strictEqStr, ho]
      rw [buildPicksStep, if_pos hcond]
      simp [ho]
    · have hcond : strictEqStr o (JSValue.str dflt) = false := by
        simp [strictEqStr, ho]
      apply ih
      cases h with
      | inl hmem =>
        left
        rcases List.mem_cons.mp hmem with heq | hrest
        · exact absurd heq.symm ho
        · exact hrest
      | inr hhead =>
        right
        rw [buildPicksStep, hcond]
        simp only [Bool.false_eq_true, if_neg]
        cases acc with
        | nil => simp at hhead
        | cons a as => simpa using hhead

/-- The labels of the built pick list are a permutation of the options
(plus whatever was already accumulated). -/
theorem buildPicks_labels_perm (dflt : JSValue) :
    ∀ (os : List String) (acc : List QuickPickItem),
      ((os.foldl (buildPicksStep dflt) acc).map QuickPickItem.label).Perm
        (os ++ acc.map QuickPickItem.label) := by
  intro os
  induction os with
  | nil => intro acc; simp
  | cons o os ih =>
    intro acc
    rw [List.foldl_cons]
    refine (ih (buildPicksStep dflt acc o)).trans ?_
    rw [buildPicksStep]
    by_cases ho : strictEqStr o dflt = true
    · rw [if_pos ho]
      simp only [List.map_cons, List.cons_append]
      exact List.perm_middle
    · rw [if_neg ho]
      simp only [List.map_append, List.map_cons, List.map_nil, List.cons_append]
      rw [← List.append_assoc]
      exact List.perm_append_singleton o (os ++ acc.map QuickPickItem.label)

/-- Unwrapping a wrapped string is the identity. -/
theorem stringOf_str (s : String) : stringOf (JSValue.str s) = s := rfl

/-- Extracting the strings of a wrapped string list is the identity. -/
theorem stringArrayOf_map_str (l : List String) :
    stringArrayOf (JSValue.arr (l.map JSValue.str)) = l := by
  simp only [stringArrayOf, List.map_map]
  have hid : (stringOf ∘ JSValue.str) = id := funext fun s => rfl
  rw [hid, List.map_id]

/-- A wrapped string list passes `Types.isStringArray`. -/
theorem isStringArray_map_str (l : List String) :
    Types.isStringArray (JSValue.arr (l.map JSValue.str)) = true := by
  simp only [Types.isStringArray, List.all_eq_true]
  intro x hx
  obtain ⟨s, -, rfl⟩ := List.mem_map.mp hx
  rfl

/-! ### Claim theorems -/

/-- C1: if resolving a single scanned variable yields a non-string value
(JS `undefined` or `null`, including the cancel sentinel, modelled
`Except.ok none`), the orchestrator loop immediately returns `undefined` for
the whole call: no partial mapping is returned, and — since the remaining
variable list `rest` and the accumulated values `acc` are universally
quantified and absent from the result — no variable after the failing one is
ever resolved. -/
theorem c1_abort_on_nonstring (env : Env) (cfg : JSValue)
    (amap : Option (List (String × String))) (inputs : Option (List ConfiguredInput))
    (acc : List (String × String)) (v : String) (rest : List String)
    (h : resolveOneVariable env cfg amap inputs v = Except.ok none) :
    resolveVarsLoop env cfg amap inputs (v :: rest) acc = Except.ok none := by
  simp [resolveVarsLoop, h]

/-- Witness for C1: of three scanned prompt variables, `input:a` resolves to
`va`, resolving `input:b` is cancelled, and the loop returns the absent
result (in particular `input:c` plays no role). -/
theorem c1_abort_on_nonstring_witness :
    resolveVarsLoop promptEnvAB (JSValue.str "cfg") none (some inputsABC)
      ["input:a", "input:b", "input:c"] [] = Except.ok none := by
  have h1 : resolveOneVariable promptEnvAB (JSValue.str "cfg") none (some inputsABC)
      "input:a" = Except.ok (some "va") := by decide
  have h2 : resolveOneVariable promptEnvAB (JSValue.str "cfg") none (some inputsABC)
      "input:b" = Except.ok none := by decide
  rw [resolveVarsLoop, h1]
  exact c1_abort_on_nonstring promptEnvAB (JSValue.str "cfg") none (some inputsABC)
    (dictSet [] "input:a" "va") "input:b" ["input:c"] h2

/-- C2: for every configuration tree, the scan contains no duplicates and
equals the first-occurrence deduplication of the raw reference sequence of
the fixed traversal (strings scanned left to right, then sequence elements
in order, then mapping values in key order), so a reference embedded twice
yields exactly one entry, at the position of its earlier occurrence. -/
theorem c2_scan_nodup_first_occurrence (T : JSValue) :
    (findVariables T []).Nodup ∧ findVariables T [] = firstDedup (allRefs T) := by
  constructor
  · rw [findVariables_eq]
    exact foldl_pushUnique_nodup (allRefs T) [] List.nodup_nil
  · rw [findVariables_eq]
    rfl

/-- C3 (code bug): when the declared-inputs lookup produced no list at all
(`inputs` left `undefined`, e.g. no folder or empty workbench state), the
code calls `.filter` on `undefined` and throws a `TypeError` instead of the
`UndefinedVariable` fault the claim promises; with a present (even empty)
table and no matching id it does raise `UndefinedVariable`. -/
theorem c3_undefined_inputs_typeerror (env : Env) (v : String) :
    showUserInput env (some v) none =
      Except.error (Fault.typeError "cannot read property filter of undefined") ∧
    showUserInput env (some v) (some []) =
      Except.error (Fault.undefinedVariable v) := by
  exact ⟨rfl, rfl⟩

/-- C4 counterexample: the reference `command:a:b` dispatches to the command
resolver with name `a`, not `a:b` — JS `split(':', 2)` truncates to the
first two segments.  The echoing environment makes the invoked command id
observable as the result. -/
theorem c4_counterexample :
    resolveOneVariable echoEnv (JSValue.str "cfg") none none "command:a:b" =
      Except.ok (some "a") ∧
    ¬resolveOneVariable echoEnv (JSValue.str "cfg") none none "command:a:b" =
      Except.ok (some "a:b") := by
  exact ⟨rfl, by decide⟩

/-- C4 (amended): the orchestrator splits the scanned reference at every
colon and keeps only the first two segments, so the name passed to the
resolver is the segment between the first and second colon and everything
after a second colon is dropped; resolving `command:<nm>:<ext>` is
indistinguishable from resolving `command:<nm>`. -/
theorem c4_amended_split_truncates (nm ext : String) (hn : ':' ∉ nm.data) :
    jsSplit2 ("command:" ++ nm ++ ":" ++ ext) = ["command", nm] ∧
    ∀ (env : Env) (cfg : JSValue) (amap : Option (List (String × String)))
      (inputs : Option (List ConfiguredInput)),
      resolveOneVariable env cfg amap inputs ("command:" ++ nm ++ ":" ++ ext) =
        resolveOneVariable env cfg amap inputs ("command:" ++ nm) := by
  have hk : ':' ∉ ("command" : String).data := by decide
  have hcc : ("command:" : String) = "command" ++ ":" := rfl
  have h3 : jsSplit2 ("command" ++ ":" ++ nm ++ ":" ++ ext) = ["command", nm] :=
    jsSplit2_three "command" nm ext hk hn
  have h2 : jsSplit2 ("command" ++ ":" ++ nm) = ["command", nm] :=
    jsSplit2_two "command" nm hk hn
  constructor
  · rw [hcc]
    exact h3
  · intro env cfg amap inputs
    unfold resolveOneVariable
    rw [hcc, h3, h2]

/-- Witness for C4 (amended), at `nm = a`, `ext = b`. -/
theorem c4_amended_split_truncates_witness :
    jsSplit2 ("command:" ++ "a" ++ ":" ++ "b") = ["command", "a"] ∧
    resolveOneVariable pickEnv (JSValue.str "cfg") none none
        ("command:" ++ "a" ++ ":" ++ "b") =
      resolveOneVariable pickEnv (JSValue.str "cfg") none none ("command:" ++ "a") := by
  have h := c4_amended_split_truncates "a" "b" (by decide)
  exact ⟨h.1, h.2 pickEnv (JSValue.str "cfg") none none⟩

/-- C5: for a well-formed `pickString` definition whose default is among its
options, the choice list has the option equal to the default at the first
position annotated as the default choice, the remaining entries being the
other options (the labels are a permutation of the options), and the picker
is invoked with exactly this list and with the definition description as
placeholder. -/
theorem c5_pickString_default_first (env : Env) (v descr dflt : String)
    (options : List String) (hmem : dflt ∈ options) :
    (buildPicks options (JSValue.str dflt)).head? =
      some { label := dflt, description := some "Default" } ∧
    ((buildPicks options (JSValue.str dflt)).map QuickPickItem.label).Perm options ∧
    showUserInput env (some v) (some [mkPickInput v descr dflt options]) =
      Except.ok (Option.map QuickPickItem.label
        (env.pick (buildPicks options (JSValue.str dflt))
          { placeHolder := JSValue.str descr })) := by
  refine ⟨?_, ?_, ?_⟩
  · exact buildPicks_head dflt options [] (Or.inl hmem)
  · have h := buildPicks_labels_perm (JSValue.str dflt) options []
    simpa [buildPicks] using h
  · simp [showUserInput, mkPickInput, Types.isString, isStringArray_map_str,
      stringArrayOf_map_str]

/-- Witness for C5, at options `[x, d]` with default `d`. -/
theorem c5_pickString_default_first_witness :
    (buildPicks ["x", "d"] (JSValue.str "d")).head? =
      some { label := "d", description := some "Default" } ∧
    ((buildPicks ["x", "d"] (JSValue.str "d")).map QuickPickItem.label).Perm ["x", "d"] ∧
    showUserInput pickEnv (some "v") (some [mkPickInput "v" "descr" "d" ["x", "d"]]) =
      Except.ok (Option.map QuickPickItem.label
        (pickEnv.pick (buildPicks ["x", "d"] (JSValue.str "d"))
          { placeHolder := JSValue.str "descr" })) :=
  c5_pickString_default_first pickEnv "v" "descr" "d" ["x", "d"] (by decide)

/-- C6: resolving a `promptString` input calls the prompt capability with
the definition description as prompt text and an unset (`undefined`, i.e.
empty) prefill when the definition has no default, and with prefill `foo`
when the default is `foo`; the answer is then passed through the
empty-string-to-`undefined` coercion. -/
theorem c6_promptString_prefill (env : Env) (v descr : String) :
    showUserInput env (some v) (some [mkPromptInput v descr JSValue.undef]) =
      Except.ok (strOrUndef
        (env.input { prompt := JSValue.str descr, value := JSValue.undef })) ∧
    showUserInput env (some v) (some [mkPromptInput v descr (JSValue.str "foo")]) =
      Except.ok (strOrUndef
        (env.input { prompt := JSValue.str descr, value := JSValue.str "foo" })) := by
  constructor <;> simp [showUserInput, mkPromptInput, Types.isString, truthy]

/-- C7: for a direct `command` variable the execution result must be a
string — a string is recorded, a JS `undefined`/`null` result aborts the
call (absent result, no fault), and any other value raises the
`InvalidResultType` fault naming the invoked command id. -/
theorem c7_command_result_classification (env : Env) (cfg : JSValue)
    (amap : Option (List (String × String))) (inputs : Option (List ConfiguredInput))
    (nm : String) (hn : ':' ∉ nm.data) :
    (∀ s : String,
      env.executeCommand (aliasOrName amap (some nm)) cfg = JSValue.str s →
      resolveOneVariable env cfg amap inputs ("command:" ++ nm) = Except.ok (some s)) ∧
    (∀ r : JSValue,
      env.executeCommand (aliasOrName amap (some nm)) cfg = r →
      Types.isUndefinedOrNull r = true →
      resolveOneVariable env cfg amap inputs ("command:" ++ nm) = Except.ok none) ∧
    (∀ r : JSValue,
      env.executeCommand (aliasOrName amap (some nm)) cfg = r →
      Types.isString r = false → Types.isUndefinedOrNull r = false →
      resolveOneVariable env cfg amap inputs ("command:" ++ nm) =
        Except.error (Fault.invalidResultType (jsShow (aliasOrName amap (some nm))))) := by
  have hk : ':' ∉ ("command" : String).data := by decide
  have hcc : ("command:" : String) = "command" ++ ":" := rfl
  have hsplit : jsSplit2 ("command:" ++ nm) = ["command", nm] := by
    rw [hcc]
    exact jsSplit2_two "command" nm hk hn
  refine ⟨?_, ?_, ?_⟩
  · intro s hs
    unfold resolveOneVariable
    rw [hsplit]
    simp [hs, Types.isString, stringOf]
  · intro r hr hnull
    unfold resolveOneVariable
    rw [hsplit]
    cases r <;> simp_all [Types.isString, Types.isUndefinedOrNull]
  · intro r hr hstr hnull
    unfold resolveOneVariable
    rw [hsplit]
    simp [hr, hstr, hnull]

/-- Witness for C7: a command returning the number `3` makes resolution
fail with `InvalidResultType`. -/
theorem c7_command_result_classification_witness :
    resolveOneVariable numEnv (JSValue.str "cfg") none none "command:c" =
      Except.error (Fault.invalidResultType "c") :=
  (c7_command_result_classification numEnv (JSValue.str "cfg") none none "c"
    (by decide)).2.2 (JSValue.num 3) rfl rfl rfl

/-- C8: `updateMapping` returns `false` and leaves the cumulative mapping
byte-for-byte unchanged when the new mapping is absent; otherwise it returns
`true` and copies every entry over, a colliding key ending up with the new
mapping value (the last binding in the batch) while other keys read as
before — in particular merging `{a: 1}` into `{a: 0, b: 2}` yields
`{a: 1, b: 2}` and `true`. -/
theorem c8_updateMapping_merge :
    (∀ cum : List (String × String), updateMapping none cum = (false, cum)) ∧
    (∀ (m cum : List (String × String)), (updateMapping (some m) cum).1 = true) ∧
    (∀ (m cum : List (String × String)) (k : String),
      dictGet k (updateMapping (some m) cum).2 =
        match lastLookup k m with
        | some v => some v
        | none => dictGet k cum) ∧
    updateMapping (some [("a", "1")]) [("a", "0"), ("b", "2")] =
      (true, [("a", "1"), ("b", "2")]) := by
  refine ⟨fun cum => rfl, fun m cum => rfl, ?_, by decide⟩
  intro m cum k
  exact dictGet_foldl_dictSet m cum k

/-- C9: the command id actually invoked is the alias map entry when present
and non-empty and the name itself otherwise; in particular
`command:build.task` with no alias map invokes the command id `build.task`
directly, with the full configuration tree as the command argument. -/
theorem c9_alias_or_name :
    (∀ (m : List (String × String)) (nm c : String),
      dictGet nm m = some c → ¬c = "" → aliasOrName (some m) (some nm) = some c) ∧
    (∀ (m : List (String × String)) (nm : String),
      dictGet nm m = some "" → aliasOrName (some m) (some nm) = some nm) ∧
    (∀ (m : List (String × String)) (nm : String),
      dictGet nm m = none → aliasOrName (some m) (some nm) = some nm) ∧
    (∀ nm : String, aliasOrName none (some nm) = some nm) ∧
    (∀ (env : Env) (cfg : JSValue) (inputs : Option (List ConfiguredInput)),
      resolveOneVariable env cfg none inputs "command:build.task" =
        (let result := env.executeCommand (some "build.task") cfg
         if Types.isString result then Except.ok (some (stringOf result))
         else if Types.isUndefinedOrNull result then Except.ok none
         else Except.error (Fault.invalidResultType "build.task"))) := by
  refine ⟨?_, ?_, ?_, ?_, ?_⟩
  · intro m nm c h hne
    simp [aliasOrName, jsShow, h, hne]
  · intro m nm h
    simp [aliasOrName, jsShow, h]
  · intro m nm h
    simp [aliasOrName, jsShow, h]
  · intro nm
    rfl
  · intro env cfg inputs
    have hsplit : jsSplit2 "command:build.task" = ["command", "build.task"] := by decide
    unfold resolveOneVariable
    rw [hsplit]
    rfl

/-- Witness for C9: a non-empty alias entry for `n` redirects the command
id to `cmd2`. -/
theorem c9_alias_or_name_witness :
    aliasOrName (some [("n", "cmd2")]) (some "n") = some "cmd2" :=
  c9_alias_or_name.1 [("n", "cmd2")] "n" "cmd2" (by decide) (by decide)

/-- C10: when the user answers a `promptString` with the empty string, the
falsy answer is coerced to `undefined`, so the variable is not mapped to the
empty string and the orchestrator loop returns the absent result for the
whole call. -/
theorem c10_empty_answer_aborts (env : Env) (descr : String)
    (h : env.input { prompt := JSValue.str descr, value := JSValue.undef } = some "") :
    showUserInput env (some "v") (some [mkPromptInput "v" descr JSValue.undef]) =
      Except.ok none ∧
    ∀ (cfg : JSValue) (amap : Option (List (String × String))) (rest : List String)
      (acc : List (String × String)),
      resolveVarsLoop env cfg amap (some [mkPromptInput "v" descr JSValue.undef])
        ("input:v" :: rest) acc = Except.ok none := by
  have hshow : showUserInput env (some "v") (some [mkPromptInput "v" descr JSValue.undef]) =
      Except.ok none := by
    simp [showUserInput, mkPromptInput, Types.isString, truthy, h, strOrUndef]
  refine ⟨hshow, ?_⟩
  intro cfg amap rest acc
  have hone : resolveOneVariable env cfg amap
      (some [mkPromptInput "v" descr JSValue.undef]) "input:v" = Except.ok none := by
    have hsplit : jsSplit2 "input:v" = ["input", "v"] := by decide
    unfold resolveOneVariable
    rw [hsplit]
    exact hshow
  simp [resolveVarsLoop, hone]

/-- Witness for C10: with the always-empty-answer environment, `input:v`
resolves to `undefined` and the loop aborts (never reaching `input:w`). -/
theorem c10_empty_answer_aborts_witness :
    showUserInput emptyAnswerEnv (some "v") (some [mkPromptInput "v" "d" JSValue.undef]) =
      Except.ok none ∧
    resolveVarsLoop emptyAnswerEnv (JSValue.str "cfg") none
      (some [mkPromptInput "v" "d" JSValue.undef]) ["input:v", "input:w"] [] =
      Except.ok none := by
  have h := c10_empty_answer_aborts emptyAnswerEnv "d" rfl
  exact ⟨h.1, h.2 (JSValue.str "cfg") none ["input:w"] []⟩

end ConfigResolver
